import Mathlib

/-!
Verification of the set-associative cache simulator (`cache_asociativo.cpp`).

The simulator core consists of:
* `ExternalMemory` — a backing store of `numBlocks` fixed-size blocks,
  with a bounds-checked `read_block`;
* `CacheSet` — an LRU-ordered list of resident block indices
  (most-recently-used at the front), capacity `numWays`;
* `Cache` — `numSets` cache sets plus the counters `hits`, `misses`
  and `prefetch_hits`, with address decoding, LRU access and a
  sequential prefetch policy that counts already-resident successors
  and reads absent ones from the backing store without installing them;
* `RealisticAccessPattern` — the hot/cold address generator.

All machine integers in the source are `size_t`; every reachable value in
the model is far below `2^64`, so they are embedded as `Nat`.
-/

namespace CacheSim

/-- The configuration constants of the simulator: `MyBLOCK_SIZE`,
`CACHE_SIZE`, the template parameter `NUM_WAYS`, `PREFETCH_DISTANCE`, and
the number of blocks the `ExternalMemory` was constructed with
(`memory->size()`). -/
structure Config where
  blockSize : Nat
  cacheSize : Nat
  numWays : Nat
  prefetchDistance : Nat
  numBlocks : Nat
deriving DecidableEq

/-- Number of sets, from the `Cache` constructor:
`num_sets = CACHE_SIZE / (MyBLOCK_SIZE * NUM_WAYS); if (num_sets == 0) num_sets = 1;`. -/
def Config.numSets (cfg : Config) : Nat :=
  let n := cfg.cacheSize / (cfg.blockSize * cfg.numWays)
  if n = 0 then 1 else n

/-- The error thrown by `ExternalMemory::read_block`
(`std::out_of_range`). -/
inductive MemError where
  | outOfRange
deriving DecidableEq

/-- Source `Block(initial_value)`: `data[i] = initial_value + i`.  The memory
constructor stores `Block(b * MyBLOCK_SIZE)` at index `b`. -/
def mkBlock (blockSize b : Nat) : List Int :=
  (List.range blockSize).map (fun i => (b * blockSize + i : Int))

/-- Source `ExternalMemory::read_block`: throws `out_of_range` when
`block_address >= blocks.size()`, otherwise returns the stored block. -/
def ExternalMemory.read_block (cfg : Config) (b : Nat) : Except MemError (List Int) :=
  if cfg.numBlocks ≤ b then Except.error MemError.outOfRange
  else Except.ok (mkBlock cfg.blockSize b)

/-- A `CacheSet`'s state: its `std::list<size_t> blocks`, front =
most recently used. -/
abbrev CacheSet := List Nat

/-- Source `CacheSet::access` (LRU policy).  If the block is present: erase its
position, push it to the front, return `true`.  Otherwise, if the set is
full (`blocks.size() >= ways`), pop the back; push the block to the
front and return `false`. -/
def CacheSet.access (ways : Nat) (s : CacheSet) (b : Nat) : Bool × CacheSet :=
  if b ∈ s then (true, b :: s.erase b)
  else if ways ≤ s.length then (false, b :: s.dropLast)
  else (false, b :: s)

/-- Source `CacheSet::contains`: pure membership test (`std::find`). -/
def CacheSet.contains (s : CacheSet) (b : Nat) : Bool :=
  decide (b ∈ s)

/-- The `Cache` state: the vector of sets and the three counters. -/
structure Cache where
  sets : List CacheSet
  hits : Nat
  misses : Nat
  prefetch_hits : Nat
deriving DecidableEq

/-- The `Cache` constructor: `num_sets` empty sets, all counters zero. -/
def Cache.init (cfg : Config) : Cache :=
  { sets := List.replicate cfg.numSets []
    hits := 0
    misses := 0
    prefetch_hits := 0 }

/-- Source `Cache::is_block_in_cache`: membership in set
`block_address % sets.size()`, without touching LRU order. -/
def Cache.is_block_in_cache (c : Cache) (b : Nat) : Bool :=
  CacheSet.contains (c.sets.getD (b % c.sets.length) []) b

/-- One iteration of the loop body of `Cache::prefetch_adjacent_blocks`:
when `i < memory->size()`, a resident block increments `prefetch_hits`,
an absent block is read from the backing store (result discarded, block
not installed). -/
def pstep (cfg : Config) (acc : Cache) (i : Nat) : Cache :=
  if i < cfg.numBlocks then
    if acc.is_block_in_cache i then
      { acc with prefetch_hits := acc.prefetch_hits + 1 }
    else acc
  else acc

/-- The successor indices visited by the prefetch loop:
`block_address + 1, ..., block_address + PREFETCH_DISTANCE`. -/
def prefetchList (d b : Nat) : List Nat :=
  (List.range d).map (fun k => b + 1 + k)

/-- Source `Cache::prefetch_adjacent_blocks`: fold of the loop body over the
successor indices. -/
def Cache.prefetch_adjacent_blocks (cfg : Config) (c : Cache) (b : Nat) : Cache :=
  (prefetchList cfg.prefetchDistance b).foldl (pstep cfg) c

/-- Source `Cache::access`: decode `block_address = address / MyBLOCK_SIZE`,
`set_index = block_address % sets.size()`; delegate to
`sets[set_index].access`.  On a hit, increment `hits`; on a miss, run
`prefetch_adjacent_blocks(block_address)` and then increment `misses`
(this is the source's statement order). -/
def Cache.access (cfg : Config) (c : Cache) (addr : Nat) : Bool × Cache :=
  let b := addr / cfg.blockSize
  let setIndex := b % c.sets.length
  let r := CacheSet.access cfg.numWays (c.sets.getD setIndex []) b
  let c1 : Cache := { c with sets := c.sets.set setIndex r.2 }
  if r.1 then
    (true, { c1 with hits := c1.hits + 1 })
  else
    let c2 := Cache.prefetch_adjacent_blocks cfg c1 b
    (false, { c2 with misses := c2.misses + 1 })

/-- Running an address sequence through a freshly constructed cache, as
the simulation driver does. -/
def Cache.run (cfg : Config) (addrs : List Nat) : Cache :=
  addrs.foldl (fun c a => (Cache.access cfg c a).2) (Cache.init cfg)

/-- Source `Cache::getHits`. -/
def Cache.getHits (c : Cache) : Nat := c.hits

/-- Source `Cache::getMisses`. -/
def Cache.getMisses (c : Cache) : Nat := c.misses

/-- Source `Cache::getPrefetchHits`. -/
def Cache.getPrefetchHits (c : Cache) : Nat := c.prefetch_hits

/-- Source `Cache::getHitRate`: `static_cast<double>(hits) / (hits + misses)` in
IEEE double arithmetic.  The quotient is the exact rational for the
counter magnitudes arising here, except when `hits + misses = 0`: the
source divides unconditionally, so the expression is `0.0 / 0.0`, which
is IEEE NaN — not a number at all.  The embedding returns the exact
rational quotient and `none` for the NaN case. -/
def Cache.getHitRate? (c : Cache) : Option ℚ :=
  if c.hits + c.misses = 0 then none
  else some ((c.hits : ℚ) / ((c.hits : ℚ) + (c.misses : ℚ)))

/-- Source `Cache::getEffectiveHitRate`:
`(hits + prefetch_hits) / (hits + misses + prefetch_hits)`, embedded like
`getHitRate?` (`none` = the NaN produced by a zero denominator). -/
def Cache.getEffectiveHitRate? (c : Cache) : Option ℚ :=
  if c.hits + c.misses + c.prefetch_hits = 0 then none
  else some (((c.hits : ℚ) + (c.prefetch_hits : ℚ)) /
    ((c.hits : ℚ) + (c.misses : ℚ) + (c.prefetch_hits : ℚ)))

/-- One iteration of the prefetch loop with the backing-store read made
explicit: the absent-block branch performs `memory->read_block(i)` and
discards the result; a thrown `out_of_range` would propagate. -/
def pstepE (cfg : Config) (acc : Cache) (i : Nat) : Except MemError Cache :=
  if i < cfg.numBlocks then
    if acc.is_block_in_cache i then
      Except.ok { acc with prefetch_hits := acc.prefetch_hits + 1 }
    else
      (ExternalMemory.read_block cfg i).map (fun _ => acc)
  else Except.ok acc

/-- Source `Cache::prefetch_adjacent_blocks` with exception propagation made
explicit. -/
def Cache.prefetchE (cfg : Config) (c : Cache) (b : Nat) : Except MemError Cache :=
  (prefetchList cfg.prefetchDistance b).foldlM (pstepE cfg) c

/-- The in-range successor blocks of `b` that are resident at prefetch
time: the ones the prefetch loop counts in `prefetch_hits`. -/
def residentSuccs (cfg : Config) (c : Cache) (b : Nat) : List Nat :=
  (prefetchList cfg.prefetchDistance b).filter
    (fun i => decide (i < cfg.numBlocks) && c.is_block_in_cache i)

/-- The in-range successor blocks of `b` that are absent at prefetch
time: the ones the prefetch loop reads from the backing store. -/
def readSuccs (cfg : Config) (c : Cache) (b : Nat) : List Nat :=
  (prefetchList cfg.prefetchDistance b).filter
    (fun i => decide (i < cfg.numBlocks) && !(c.is_block_in_cache i))

/-- Observable counter-update and backing-store events of one
`Cache::access` call. -/
inductive Ev where
  | outcome : Bool → Ev
  | incrHits : Ev
  | incrMisses : Ev
  | incrPrefetchHits : Nat → Ev
  | readBlock : Nat → Ev
deriving DecidableEq

/-- The events of the prefetch loop, in source statement order.  The
loop mutates only `prefetch_hits`, never `sets`, so the residency tests
of all iterations are taken against the same table `c.sets`. -/
def prefetchTrace (cfg : Config) (c : Cache) (b : Nat) : List Ev :=
  (prefetchList cfg.prefetchDistance b).filterMap (fun i =>
    if i < cfg.numBlocks then
      if c.is_block_in_cache i then some (Ev.incrPrefetchHits i)
      else some (Ev.readBlock i)
    else none)

/-- The events of one `Cache::access` call in source statement order:
the hit/miss outcome is determined by `sets[set_index].access`; a hit
then increments `hits`; a miss runs the prefetch loop and only then
increments `misses`. -/
def Cache.accessTrace (cfg : Config) (c : Cache) (addr : Nat) : List Ev :=
  let b := addr / cfg.blockSize
  let setIndex := b % c.sets.length
  let r := CacheSet.access cfg.numWays (c.sets.getD setIndex []) b
  let c1 : Cache := { c with sets := c.sets.set setIndex r.2 }
  if r.1 then [Ev.outcome true, Ev.incrHits]
  else Ev.outcome false :: (prefetchTrace cfg c1 b ++ [Ev.incrMisses])

/-- Scans an access trace for the ordering "the miss is counted in
`misses` before any `prefetch_hits` update": `true` iff no
`incrPrefetchHits` event occurs before the first `incrMisses` event. -/
def missCountedFirst : List Ev → Bool
  | [] => true
  | Ev.incrMisses :: _ => true
  | Ev.incrPrefetchHits _ :: _ => false
  | _ :: t => missCountedFirst t

/-- Returns `true` iff the list holds only prefetch-loop events
(`incrPrefetchHits` or `readBlock`). -/
def prefetchEvOnly : List Ev → Bool
  | [] => true
  | Ev.incrPrefetchHits _ :: t => prefetchEvOnly t
  | Ev.readBlock _ :: t => prefetchEvOnly t
  | _ => false

/-- The mutable state of `RealisticAccessPattern`: the access counter
and the requested stream length.  The Mersenne-twister draws are passed
to `next_address` as explicit inputs. -/
structure RealisticAccessPattern where
  count : Nat
  num_elements : Nat
deriving DecidableEq

/-- Source `RealisticAccessPattern::next_address`: once `count >= num_elements`
it returns address `0` without touching `count`; otherwise it builds
`block * MyBLOCK_SIZE + offset` from the drawn hot/cold block and offset
and increments `count`.  `accessHot`, `hotBlk`, `coldBlk` and `off`
stand for the values drawn from the member distributions. -/
def RealisticAccessPattern.next_address (blockSize : Nat)
    (s : RealisticAccessPattern) (accessHot : Bool) (hotBlk coldBlk off : Nat) :
    Nat × RealisticAccessPattern :=
  if s.num_elements ≤ s.count then (0, s)
  else
    let block := if accessHot then hotBlk else coldBlk
    (block * blockSize + off, { s with count := s.count + 1 })

/-- The reachable-state invariant of the cache table: the set count is
`numSets`; every set holds at most `numWays` pairwise-distinct block
indices; and a block index found in set `i` satisfies `i = b % numSets`
(so a resident block is in its home set and in no other). -/
def Inv (cfg : Config) (c : Cache) : Prop :=
  c.sets.length = cfg.numSets ∧
  (∀ s ∈ c.sets, s.length ≤ cfg.numWays ∧ s.Nodup) ∧
  (∀ b i, b ∈ c.sets.getD i [] → i = b % cfg.numSets)

/-- The configuration of end-to-end scenario 1 of the specification:
`BLOCK_SIZE = 4`, `CACHE_SIZE = 16`, `NUM_WAYS = 2` (hence 2 sets),
`PREFETCH_DISTANCE = 0`, and a 4-block backing store. -/
def cfgScenario1 : Config :=
  { blockSize := 4, cacheSize := 16, numWays := 2
    prefetchDistance := 0, numBlocks := 4 }

/-- A configuration with a non-trivial prefetch distance: 2 sets of 2
ways, `PREFETCH_DISTANCE = 1`, 8 blocks of backing store. -/
def cfgPrefetch : Config :=
  { blockSize := 4, cacheSize := 16, numWays := 2
    prefetchDistance := 1, numBlocks := 8 }

/-- C5: With `BLOCK_SIZE = 4`, `CACHE_SIZE = 16`, `NUM_WAYS = 2`,
`NUM_SETS = 2` and `PREFETCH_DISTANCE = 0`, the access sequence
0, 4, 8, 12, 0 on an initially empty cache ends with `misses = 4` and
`hits = 1`. -/
theorem scenario1_counts :
    cfgScenario1.numSets = 2 ∧
    (Cache.run cfgScenario1 [0, 4, 8, 12, 0]).misses = 4 ∧
    (Cache.run cfgScenario1 [0, 4, 8, 12, 0]).hits = 1 := by
  decide

theorem pstep_sets (cfg : Config) (c : Cache) (i : Nat) :
    (pstep cfg c i).sets = c.sets := by
  unfold pstep
  split
  · split <;> rfl
  · rfl

theorem pstep_hits (cfg : Config) (c : Cache) (i : Nat) :
    (pstep cfg c i).hits = c.hits := by
  unfold pstep
  split
  · split <;> rfl
  · rfl

theorem pstep_misses (cfg : Config) (c : Cache) (i : Nat) :
    (pstep cfg c i).misses = c.misses := by
  unfold pstep
  split
  · split <;> rfl
  · rfl

theorem is_block_in_cache_congr (c₁ c₂ : Cache) (h : c₁.sets = c₂.sets) (b : Nat) :
    c₁.is_block_in_cache b = c₂.is_block_in_cache b := by
  unfold Cache.is_block_in_cache
  rw [h]

theorem pstep_prefetch_hits (cfg : Config) (c : Cache) (i : Nat) :
    (pstep cfg c i).prefetch_hits =
      c.prefetch_hits +
        (if (decide (i < cfg.numBlocks) && c.is_block_in_cache i) = true then 1 else 0) := by
  unfold pstep
  by_cases hb : i < cfg.numBlocks
  · by_cases hr : c.is_block_in_cache i = true
    · simp [hb, hr]
    · simp [hb, hr]
  · simp [hb]

/-- The prefetch loop, run over any index list, changes no set and no
hit/miss counter, and adds to `prefetch_hits` exactly the number of
in-range resident indices in the list. -/
theorem prefetch_foldl_spec (cfg : Config) (l : List Nat) (c : Cache) :
    (l.foldl (pstep cfg) c).sets = c.sets ∧
    (l.foldl (pstep cfg) c).hits = c.hits ∧
    (l.foldl (pstep cfg) c).misses = c.misses ∧
    (l.foldl (pstep cfg) c).prefetch_hits =
      c.prefetch_hits +
        (l.filter (fun i => decide (i < cfg.numBlocks) && c.is_block_in_cache i)).length := by
  induction l generalizing c with
  | nil => simp
  | cons x xs ih =>
    obtain ⟨h1, h2, h3, h4⟩ := ih (pstep cfg c x)
    have hsets : (pstep cfg c x).sets = c.sets := pstep_sets cfg c x
    have hmem : ∀ i, (pstep cfg c x).is_block_in_cache i = c.is_block_in_cache i :=
      fun i => is_block_in_cache_congr _ _ hsets i
    refine ⟨by simpa [hsets] using h1, by simpa [pstep_hits] using h2,
      by simpa [pstep_misses] using h3, ?_⟩
    have h4' : ((x :: xs).foldl (pstep cfg) c).prefetch_hits =
        (pstep cfg c x).prefetch_hits +
          (xs.filter (fun i => decide (i < cfg.numBlocks) && c.is_block_in_cache i)).length := by
      simpa [hmem] using h4
    rw [h4', pstep_prefetch_hits]
    by_cases hx : (decide (x < cfg.numBlocks) && c.is_block_in_cache x) = true
    · simp [List.filter_cons, hx]
      omega
    · simp [List.filter_cons, hx]

/-- The `readBlock` events of the prefetch trace are exactly the
in-range absent successors. -/
theorem prefetchTrace_reads (cfg : Config) (c : Cache) (b : Nat) :
    (prefetchTrace cfg c b).filterMap
        (fun e => match e with | Ev.readBlock i => some i | _ => none) =
      readSuccs cfg c b := by
  unfold prefetchTrace readSuccs
  generalize prefetchList cfg.prefetchDistance b = l
  induction l with
  | nil => rfl
  | cons x xs ih =>
    by_cases hb : x < cfg.numBlocks
    · by_cases hr : c.is_block_in_cache x = true
      · simp [List.filterMap_cons, List.filter_cons, hb, hr, ih]
      · simp [List.filterMap_cons, List.filter_cons, hb, hr, ih]
    · simp [List.filterMap_cons, List.filter_cons, hb, ih]

/-- C1: the prefetch performed during a miss leaves every cache set
unchanged (so a resident successor is not moved in its set's LRU order
and an absent successor is not installed), leaves `hits` and `misses`
unchanged, adds to `prefetch_hits` exactly the number of in-range
resident successors, and the blocks it reads from the backing store are
exactly the in-range absent successors. -/
theorem prefetch_frame_and_count (cfg : Config) (c : Cache) (b : Nat) :
    (c.prefetch_adjacent_blocks cfg b).sets = c.sets ∧
    (c.prefetch_adjacent_blocks cfg b).hits = c.hits ∧
    (c.prefetch_adjacent_blocks cfg b).misses = c.misses ∧
    (c.prefetch_adjacent_blocks cfg b).prefetch_hits =
      c.prefetch_hits + (residentSuccs cfg c b).length ∧
    (prefetchTrace cfg c b).filterMap
        (fun e => match e with | Ev.readBlock i => some i | _ => none) =
      readSuccs cfg c b := by
  obtain ⟨h1, h2, h3, h4⟩ := prefetch_foldl_spec cfg (prefetchList cfg.prefetchDistance b) c
  exact ⟨h1, h2, h3, h4, prefetchTrace_reads cfg c b⟩

/-- C2 (failing input): on a freshly constructed cache, before any
access, `hits + misses = 0`, and both rate computations divide by zero:
the source performs `0.0 / 0.0`, IEEE NaN, rather than returning 0. -/
theorem hit_rate_zero_denominator_nan :
    (Cache.init cfgScenario1).hits + (Cache.init cfgScenario1).misses = 0 ∧
    Cache.getHitRate? (Cache.init cfgScenario1) = none ∧
    Cache.getEffectiveHitRate? (Cache.init cfgScenario1) = none := by
  refine ⟨rfl, ?_, ?_⟩ <;> rfl

/-- C4 (counterexample): with `PREFETCH_DISTANCE = 1` and block 1
resident, the miss on block 0 produces the event trace
`[outcome false, incrPrefetchHits 1, incrMisses]`: the `prefetch_hits`
update happens strictly BEFORE the miss is counted in `misses`, not
after it as claimed. -/
theorem prefetch_count_order_counterexample :
    Cache.accessTrace cfgPrefetch (Cache.run cfgPrefetch [4]) 0 =
      [Ev.outcome false, Ev.incrPrefetchHits 1, Ev.incrMisses] ∧
    missCountedFirst (Cache.accessTrace cfgPrefetch (Cache.run cfgPrefetch [4]) 0) = false ∧
    (Cache.run cfgPrefetch [4, 0]).misses = 2 ∧
    (Cache.run cfgPrefetch [4, 0]).prefetch_hits = 1 := by
  refine ⟨?_, ?_, ?_, ?_⟩ <;> decide

theorem prefetchEvOnly_prefetchTrace (cfg : Config) (c : Cache) (b : Nat) :
    prefetchEvOnly (prefetchTrace cfg c b) = true := by
  unfold prefetchTrace
  generalize prefetchList cfg.prefetchDistance b = l
  induction l with
  | nil => rfl
  | cons x xs ih =>
    by_cases hb : x < cfg.numBlocks
    · by_cases hr : c.is_block_in_cache x = true
      · simpa [List.filterMap_cons, hb, hr, prefetchEvOnly] using ih
      · simpa [List.filterMap_cons, hb, hr, prefetchEvOnly] using ih
    · simpa [List.filterMap_cons, hb] using ih

/-- C4 (amended): within one `access` call, the event trace opens with
the hit/miss outcome determination; on a hit the only later event is the
`hits` increment; on a miss the trace is the prefetch events followed by
the `misses` increment, so every `prefetch_hits` update happens strictly
after the outcome is determined and strictly BEFORE the miss is counted
in `misses` — and the whole trace precedes the next dispatched access. -/
theorem access_trace_order (cfg : Config) (c : Cache) (addr : Nat) :
    c.accessTrace cfg addr = [Ev.outcome true, Ev.incrHits] ∨
    ∃ mids, c.accessTrace cfg addr = Ev.outcome false :: (mids ++ [Ev.incrMisses]) ∧
      prefetchEvOnly mids = true := by
  simp only [Cache.accessTrace]
  by_cases h : (CacheSet.access cfg.numWays
      (c.sets.getD (addr / cfg.blockSize % c.sets.length) [])
      (addr / cfg.blockSize)).1 = true
  · left
    rw [if_pos h]
  · right
    rw [if_neg h]
    exact ⟨_, rfl, prefetchEvOnly_prefetchTrace _ _ _⟩

theorem pstepE_ok (cfg : Config) (acc : Cache) (i : Nat) :
    pstepE cfg acc i = Except.ok (pstep cfg acc i) := by
  unfold pstepE pstep ExternalMemory.read_block
  by_cases hb : i < cfg.numBlocks
  · by_cases hr : acc.is_block_in_cache i = true
    · simp [hb, hr]
    · simp [hb, hr, Nat.not_le.mpr hb, Except.map]
  · simp [hb]

theorem foldlM_ok_of_ok (f : Cache → Nat → Except MemError Cache)
    (g : Cache → Nat → Cache) (hfg : ∀ c i, f c i = Except.ok (g c i))
    (l : List Nat) (c : Cache) :
    l.foldlM f c = Except.ok (l.foldl g c) := by
  induction l generalizing c with
  | nil => rfl
  | cons x xs ih =>
    rw [List.foldlM_cons, hfg, List.foldl_cons]
    simpa using ih (g c x)

/-- C8: `read_block(b)` fails with `OutOfRange` exactly when
`b ≥ size()` and returns block `b` otherwise; the prefetch loop only
reads in-range successors (out-of-range ones are skipped by the
`i < memory->size()` guard), so the prefetch never surfaces an error. -/
theorem read_block_spec_prefetch_total (cfg : Config) (c : Cache) (b bb : Nat) :
    (ExternalMemory.read_block cfg bb = Except.error MemError.outOfRange ↔
      cfg.numBlocks ≤ bb) ∧
    (bb < cfg.numBlocks →
      ExternalMemory.read_block cfg bb = Except.ok (mkBlock cfg.blockSize bb)) ∧
    Cache.prefetchE cfg c b = Except.ok (Cache.prefetch_adjacent_blocks cfg c b) := by
  refine ⟨?_, ?_, ?_⟩
  · unfold ExternalMemory.read_block
    by_cases h : cfg.numBlocks ≤ bb <;> simp [h]
  · intro h
    unfold ExternalMemory.read_block
    simp [Nat.not_le.mpr h]
  · exact foldlM_ok_of_ok _ _ (pstepE_ok cfg) _ c

theorem read_block_spec_prefetch_total_witness :
    (0 : Nat) < cfgPrefetch.numBlocks ∧
    ExternalMemory.read_block cfgPrefetch 0 =
      Except.ok (mkBlock cfgPrefetch.blockSize 0) :=
  ⟨by decide,
    (read_block_spec_prefetch_total cfgPrefetch (Cache.init cfgPrefetch) 0 0).2.1 (by decide)⟩

/-- C10: once `count >= num_elements`, `next_address` returns address 0
and leaves the whole generator state (in particular `count`) unchanged,
whatever the random draws are — so the exhausted generator keeps
producing the sentinel address 0. -/
theorem next_address_exhausted (blockSize : Nat) (s : RealisticAccessPattern)
    (accessHot : Bool) (hotBlk coldBlk off : Nat)
    (h : s.num_elements ≤ s.count) :
    RealisticAccessPattern.next_address blockSize s accessHot hotBlk coldBlk off = (0, s) := by
  simp [RealisticAccessPattern.next_address, h]

theorem numSets_pos (cfg : Config) : 0 < cfg.numSets := by
  have hn : cfg.numSets = if cfg.cacheSize / (cfg.blockSize * cfg.numWays) = 0 then 1
      else cfg.cacheSize / (cfg.blockSize * cfg.numWays) := rfl
  rw [hn]
  by_cases h : cfg.cacheSize / (cfg.blockSize * cfg.numWays) = 0
  · rw [if_pos h]
    exact Nat.one_pos
  · rw [if_neg h]
    exact Nat.pos_of_ne_zero h

theorem residentSuccs_length_le (cfg : Config) (c : Cache) (b : Nat) :
    (residentSuccs cfg c b).length ≤ cfg.prefetchDistance := by
  unfold residentSuccs
  calc (List.filter (fun i => decide (i < cfg.numBlocks) && c.is_block_in_cache i)
        (prefetchList cfg.prefetchDistance b)).length
      ≤ (prefetchList cfg.prefetchDistance b).length := List.length_filter_le _ _
    _ = cfg.prefetchDistance := by simp [prefetchList]

theorem prefetch_adj_spec (cfg : Config) (c : Cache) (b : Nat) :
    (c.prefetch_adjacent_blocks cfg b).sets = c.sets ∧
    (c.prefetch_adjacent_blocks cfg b).hits = c.hits ∧
    (c.prefetch_adjacent_blocks cfg b).misses = c.misses ∧
    (c.prefetch_adjacent_blocks cfg b).prefetch_hits =
      c.prefetch_hits + (residentSuccs cfg c b).length := by
  unfold Cache.prefetch_adjacent_blocks residentSuccs
  exact prefetch_foldl_spec cfg _ c

/-- Both branches of `Cache::access` leave the table equal to the old
table with only `sets[set_index]` replaced by the result of the LRU
update. -/
theorem access_sets (cfg : Config) (c : Cache) (addr : Nat) :
    ((c.access cfg addr).2).sets =
      c.sets.set (addr / cfg.blockSize % c.sets.length)
        (CacheSet.access cfg.numWays
          (c.sets.getD (addr / cfg.blockSize % c.sets.length) [])
          (addr / cfg.blockSize)).2 := by
  simp only [Cache.access]
  by_cases h : (CacheSet.access cfg.numWays
      (c.sets.getD (addr / cfg.blockSize % c.sets.length) [])
      (addr / cfg.blockSize)).1 = true
  · rw [if_pos h]
  · rw [if_neg h]
    exact (prefetch_foldl_spec cfg _ _).1

theorem access_hits_misses (cfg : Config) (c : Cache) (addr : Nat) :
    (((c.access cfg addr).2).hits = c.hits + 1 ∧
      ((c.access cfg addr).2).misses = c.misses ∧
      ((c.access cfg addr).2).prefetch_hits = c.prefetch_hits) ∨
    (((c.access cfg addr).2).hits = c.hits ∧
      ((c.access cfg addr).2).misses = c.misses + 1 ∧
      ((c.access cfg addr).2).prefetch_hits ≤
        c.prefetch_hits + cfg.prefetchDistance) := by
  simp only [Cache.access]
  by_cases h : (CacheSet.access cfg.numWays
      (c.sets.getD (addr / cfg.blockSize % c.sets.length) [])
      (addr / cfg.blockSize)).1 = true
  · left
    rw [if_pos h]
    exact ⟨rfl, rfl, rfl⟩
  · right
    rw [if_neg h]
    set b := addr / cfg.blockSize with hb
    set ns := (CacheSet.access cfg.numWays (c.sets.getD (b % c.sets.length) []) b).2 with hns
    set c1 : Cache := { c with sets := c.sets.set (b % c.sets.length) ns } with hc1
    obtain ⟨-, h2, h3, h4⟩ := prefetch_adj_spec cfg c1 b
    refine ⟨h2, congrArg (· + 1) h3, ?_⟩
    show (c1.prefetch_adjacent_blocks cfg b).prefetch_hits ≤
      c.prefetch_hits + cfg.prefetchDistance
    rw [h4]
    exact Nat.add_le_add_left (residentSuccs_length_le cfg c1 b) _

theorem access_sets_length (cfg : Config) (c : Cache) (addr : Nat) :
    ((c.access cfg addr).2).sets.length = c.sets.length := by
  rw [access_sets]
  exact List.length_set c.sets _ _

theorem foldl_access_sets_length (cfg : Config) (addrs : List Nat) (c : Cache) :
    (addrs.foldl (fun c a => (Cache.access cfg c a).2) c).sets.length = c.sets.length := by
  induction addrs generalizing c with
  | nil => rfl
  | cons x xs ih => rw [List.foldl_cons, ih, access_sets_length]

theorem run_sets_length (cfg : Config) (addrs : List Nat) :
    (Cache.run cfg addrs).sets.length = cfg.numSets := by
  unfold Cache.run
  rw [foldl_access_sets_length]
  simp [Cache.init]

theorem getD_set_self (l : List CacheSet) (i : Nat) (a : CacheSet) (h : i < l.length) :
    (l.set i a).getD i [] = a := by
  induction l generalizing i with
  | nil => simp at h
  | cons x xs ih =>
    cases i with
    | zero => rfl
    | succ i => exact ih i (by simpa using h)

theorem getD_set_ne (l : List CacheSet) (i j : Nat) (a : CacheSet) (h : i ≠ j) :
    (l.set i a).getD j [] = l.getD j [] := by
  induction l generalizing i j with
  | nil => rfl
  | cons x xs ih =>
    cases i with
    | zero =>
      cases j with
      | zero => exact absurd rfl h
      | succ j => rfl
    | succ i =>
      cases j with
      | zero => rfl
      | succ j => exact ih i j (by omega)

/-- The LRU update always places the touched block at the front. -/
theorem cacheSetAccess_snd_head (w : Nat) (s : CacheSet) (b : Nat) :
    ∃ t, (CacheSet.access w s b).2 = b :: t := by
  unfold CacheSet.access
  by_cases h : b ∈ s
  · exact ⟨s.erase b, by rw [if_pos h]⟩
  · by_cases h2 : w ≤ s.length
    · exact ⟨s.dropLast, by rw [if_neg h, if_pos h2]⟩
    · exact ⟨s, by rw [if_neg h, if_neg h2]⟩

theorem cacheSetAccess_fst_of_mem (w : Nat) (s : CacheSet) (b : Nat) (h : b ∈ s) :
    (CacheSet.access w s b).1 = true := by
  unfold CacheSet.access
  rw [if_pos h]

theorem access_fst (cfg : Config) (c : Cache) (addr : Nat) :
    (c.access cfg addr).1 =
      (CacheSet.access cfg.numWays
        (c.sets.getD (addr / cfg.blockSize % c.sets.length) [])
        (addr / cfg.blockSize)).1 := by
  simp only [Cache.access]
  by_cases h : (CacheSet.access cfg.numWays
      (c.sets.getD (addr / cfg.blockSize % c.sets.length) [])
      (addr / cfg.blockSize)).1 = true
  · rw [if_pos h, h]
  · rw [if_neg h]
    exact (Bool.eq_false_iff.mpr h).symm

theorem second_access_hits (cfg : Config) (c : Cache) (addr : Nat)
    (hpos : 0 < c.sets.length) :
    (((c.access cfg addr).2).access cfg addr).1 = true := by
  obtain ⟨t, ht⟩ := cacheSetAccess_snd_head cfg.numWays
    (c.sets.getD (addr / cfg.blockSize % c.sets.length) []) (addr / cfg.blockSize)
  rw [access_fst, access_sets_length, access_sets, getD_set_self _ _ _
    (Nat.mod_lt _ hpos), ht]
  exact cacheSetAccess_fst_of_mem _ _ _ (List.mem_cons_self _ _)

/-- C6: on any cache state reachable by a run, accessing the same
address twice in a row makes the second access a hit, whether or not the
first one was. -/
theorem repeat_access_hits (cfg : Config) (addrs : List Nat) (addr : Nat) :
    (((Cache.run cfg addrs).access cfg addr).2.access cfg addr).1 = true :=
  second_access_hits cfg _ addr
    (by rw [run_sets_length]; exact numSets_pos cfg)

theorem prefetch_le_foldl (cfg : Config) (addrs : List Nat) (c : Cache)
    (h : c.prefetch_hits ≤ c.misses * cfg.prefetchDistance) :
    (addrs.foldl (fun c a => (Cache.access cfg c a).2) c).prefetch_hits ≤
      (addrs.foldl (fun c a => (Cache.access cfg c a).2) c).misses *
        cfg.prefetchDistance := by
  induction addrs generalizing c with
  | nil => exact h
  | cons x xs ih =>
    rw [List.foldl_cons]
    apply ih
    rcases access_hits_misses cfg c x with ⟨-, h2, h3⟩ | ⟨-, h2, h3⟩
    · rw [h2, h3]
      exact h
    · rw [h2, Nat.succ_mul]
      exact le_trans h3 (Nat.add_le_add h le_rfl)

/-- C7: after every run, `prefetch_hits ≤ misses · PREFETCH_DISTANCE`;
in particular `PREFETCH_DISTANCE = 0` forces `prefetch_hits = 0`. -/
theorem prefetch_hits_bound (cfg : Config) (addrs : List Nat) :
    (Cache.run cfg addrs).prefetch_hits ≤
      (Cache.run cfg addrs).misses * cfg.prefetchDistance ∧
    (cfg.prefetchDistance = 0 → (Cache.run cfg addrs).prefetch_hits = 0) := by
  have hb : (Cache.run cfg addrs).prefetch_hits ≤
      (Cache.run cfg addrs).misses * cfg.prefetchDistance :=
    prefetch_le_foldl cfg addrs (Cache.init cfg) (by simp [Cache.init])
  refine ⟨hb, fun h0 => ?_⟩
  rw [h0, Nat.mul_zero] at hb
  omega

theorem prefetch_hits_bound_witness :
    (Cache.run cfgScenario1 [0, 4, 8, 12, 0]).prefetch_hits ≤
      (Cache.run cfgScenario1 [0, 4, 8, 12, 0]).misses *
        cfgScenario1.prefetchDistance ∧
    (Cache.run cfgScenario1 [0, 4, 8, 12, 0]).prefetch_hits = 0 :=
  ⟨(prefetch_hits_bound cfgScenario1 [0, 4, 8, 12, 0]).1,
    (prefetch_hits_bound cfgScenario1 [0, 4, 8, 12, 0]).2 rfl⟩

/-- C9: `access(addr)` can modify only set
`(addr / BLOCK_SIZE) mod NUM_SETS`; on a reachable state every other set
is left exactly as it was, even on a miss whose prefetch inspects the
sets of neighboring blocks. -/
theorem access_frame_other_sets (cfg : Config) (addrs : List Nat) (addr j : Nat)
    (hj : j ≠ addr / cfg.blockSize % cfg.numSets) :
    (((Cache.run cfg addrs).access cfg addr).2).sets.getD j [] =
      (Cache.run cfg addrs).sets.getD j [] := by
  rw [access_sets]
  rw [getD_set_ne]
  rw [run_sets_length]
  omega

theorem access_frame_other_sets_witness :
    (1 : Nat) ≠ 0 / cfgScenario1.blockSize % cfgScenario1.numSets ∧
    (((Cache.run cfgScenario1 [0]).access cfgScenario1 0).2).sets.getD 1 [] =
      (Cache.run cfgScenario1 [0]).sets.getD 1 [] :=
  ⟨by decide, access_frame_other_sets cfgScenario1 [0] 0 1 (by decide)⟩

theorem cacheSetAccess_length (w : Nat) (s : CacheSet) (b : Nat) (hw : 0 < w)
    (hlen : s.length ≤ w) :
    (CacheSet.access w s b).2.length ≤ w := by
  unfold CacheSet.access
  by_cases h : b ∈ s
  · rw [if_pos h]
    have h1 : 0 < s.length := List.length_pos_of_mem h
    simp only [List.length_cons, List.length_erase_of_mem h]
    omega
  · by_cases h2 : w ≤ s.length
    · rw [if_neg h, if_pos h2]
      simp only [List.length_cons, List.length_dropLast]
      omega
    · rw [if_neg h, if_neg h2]
      simp only [List.length_cons]
      omega

theorem cacheSetAccess_nodup (w : Nat) (s : CacheSet) (b : Nat) (hnd : s.Nodup) :
    (CacheSet.access w s b).2.Nodup := by
  unfold CacheSet.access
  by_cases h : b ∈ s
  · rw [if_pos h]
    refine List.nodup_cons.mpr ⟨?_, hnd.erase b⟩
    intro hmem
    exact (hnd.mem_erase_iff.mp hmem).1 rfl
  · by_cases h2 : w ≤ s.length
    · rw [if_neg h, if_pos h2]
      refine List.nodup_cons.mpr ⟨?_, hnd.sublist (List.dropLast_sublist s)⟩
      intro hmem
      exact h ((List.dropLast_sublist s).subset hmem)
    · rw [if_neg h, if_neg h2]
      exact List.nodup_cons.mpr ⟨h, hnd⟩

theorem cacheSetAccess_mem (w : Nat) (s : CacheSet) (b x : Nat)
    (hx : x ∈ (CacheSet.access w s b).2) : x = b ∨ x ∈ s := by
  unfold CacheSet.access at hx
  by_cases h : b ∈ s
  · rw [if_pos h] at hx
    rcases List.mem_cons.mp hx with rfl | hx
    · exact Or.inl rfl
    · exact Or.inr ((List.erase_sublist b s).subset hx)
  · by_cases h2 : w ≤ s.length
    · rw [if_neg h, if_pos h2] at hx
      rcases List.mem_cons.mp hx with rfl | hx
      · exact Or.inl rfl
      · exact Or.inr ((List.dropLast_sublist s).subset hx)
    · rw [if_neg h, if_neg h2] at hx
      rcases List.mem_cons.mp hx with rfl | hx
      · exact Or.inl rfl
      · exact Or.inr hx

theorem getD_mem (l : List CacheSet) (i : Nat) (h : i < l.length) :
    l.getD i [] ∈ l := by
  rw [List.getD_eq_getElem l [] h]
  exact List.getElem_mem h

theorem getD_eq_nil_of_le (l : List CacheSet) (i : Nat) (h : l.length ≤ i) :
    l.getD i [] = [] := by
  induction l generalizing i with
  | nil => rfl
  | cons x xs ih =>
    cases i with
    | zero => simp at h
    | succ i => exact ih i (by simpa using h)

theorem inv_init (cfg : Config) : Inv cfg (Cache.init cfg) := by
  refine ⟨by simp [Cache.init], ?_, ?_⟩
  · intro s hs
    simp only [Cache.init] at hs
    rw [List.eq_of_mem_replicate hs]
    exact ⟨Nat.zero_le _, List.nodup_nil⟩
  · intro b i hb
    exfalso
    simp only [Cache.init] at hb
    have hnil : (List.replicate cfg.numSets ([] : CacheSet)).getD i [] = [] := by
      by_cases h : i < cfg.numSets
      · rw [List.getD_eq_getElem _ _ (by simpa using h)]
        simp
      · exact getD_eq_nil_of_le _ _ (by simpa using Nat.le_of_not_lt h)
    rw [hnil] at hb
    exact List.not_mem_nil b hb

theorem inv_access (cfg : Config) (hw : 0 < cfg.numWays) (c : Cache)
    (h : Inv cfg c) (addr : Nat) : Inv cfg ((c.access cfg addr).2) := by
  obtain ⟨hlen, hsets, hplace⟩ := h
  have hpos : 0 < c.sets.length := by rw [hlen]; exact numSets_pos cfg
  have hidx : addr / cfg.blockSize % c.sets.length < c.sets.length :=
    Nat.mod_lt _ hpos
  have hs0 : c.sets.getD (addr / cfg.blockSize % c.sets.length) [] ∈ c.sets :=
    getD_mem _ _ hidx
  obtain ⟨hs0len, hs0nd⟩ := hsets _ hs0
  refine ⟨?_, ?_, ?_⟩
  · rw [access_sets, List.length_set, hlen]
  · intro s hs
    rw [access_sets] at hs
    rcases List.mem_or_eq_of_mem_set hs with hs | rfl
    · exact hsets s hs
    · exact ⟨cacheSetAccess_length _ _ _ hw hs0len, cacheSetAccess_nodup _ _ _ hs0nd⟩
  · intro bb i hbb
    rw [access_sets] at hbb
    by_cases hij : addr / cfg.blockSize % c.sets.length = i
    · subst hij
      rw [getD_set_self _ _ _ hidx] at hbb
      rcases cacheSetAccess_mem _ _ _ _ hbb with rfl | hbb
      · rw [hlen]
      · exact hplace bb _ hbb
    · rw [getD_set_ne _ _ _ _ hij] at hbb
      exact hplace bb i hbb

theorem inv_foldl (cfg : Config) (hw : 0 < cfg.numWays) (addrs : List Nat)
    (c : Cache) (h : Inv cfg c) :
    Inv cfg (addrs.foldl (fun c a => (Cache.access cfg c a).2) c) := by
  induction addrs generalizing c with
  | nil => exact h
  | cons x xs ih => exact ih _ (inv_access cfg hw c h x)

/-- C3: in every cache state reachable from the empty cache (for a
positive associativity, as in all instantiations), the table has
`numSets` sets, every set holds at most `numWays` pairwise-distinct
block indices, and a block index found in set `i` satisfies
`i = b % numSets` — so each resident block is in its home set
`b mod NUM_SETS` and in no other set. -/
theorem reachable_cache_invariant (cfg : Config) (addrs : List Nat)
    (hw : 0 < cfg.numWays) :
    (Cache.run cfg addrs).sets.length = cfg.numSets ∧
    (∀ s ∈ (Cache.run cfg addrs).sets, s.length ≤ cfg.numWays ∧ s.Nodup) ∧
    (∀ b i, b ∈ (Cache.run cfg addrs).sets.getD i [] → i = b % cfg.numSets) :=
  inv_foldl cfg hw addrs (Cache.init cfg) (inv_init cfg)

theorem reachable_cache_invariant_witness :
    0 < cfgScenario1.numWays ∧
    (Cache.run cfgScenario1 [0, 4, 8, 12, 0]).sets.length = cfgScenario1.numSets :=
  ⟨by decide, (reachable_cache_invariant cfgScenario1 [0, 4, 8, 12, 0] (by decide)).1⟩

theorem next_address_exhausted_witness :
    (5 : Nat) ≤ 5 ∧
    RealisticAccessPattern.next_address 32 ⟨5, 5⟩ true 7 9 3 = (0, ⟨5, 5⟩) :=
  ⟨by decide, next_address_exhausted 32 ⟨5, 5⟩ true 7 9 3 (by decide)⟩

end CacheSim
